import Mathlib

/-!
Shallow embedding of the incremental semantic file-retrieval engine of the
FlutterGPT extension (`GeminiRepository` in `src/repository/gemini-repository.ts`):
content-addressed caching via SHA-256 of whitespace-normalized text, batch
embedding with per-batch failure handling, Euclidean-distance ranking, and the
`findClosestDartFiles` orchestration.

Numbers: embedding coordinates are modelled as rationals (`ℚ`); JavaScript's
`NaN` (arising from arithmetic on `undefined` array reads) is modelled as
`none` in `Option ℚ`.  32-bit words in SHA-256 are `Nat` reduced mod 2^32.
-/

/-- Reduce a natural number to a 32-bit word, as JS/crypto word arithmetic does. -/
def w32 (n : Nat) : Nat := n % 4294967296

/-- Right rotation of a 32-bit word by `n` bits. -/
def rotr32 (n x : Nat) : Nat := w32 ((x >>> n) ||| (x <<< (32 - n)))

/-- SHA-256 small sigma-0: rotr 7 xor rotr 18 xor shr 3. -/
def ssig0 (x : Nat) : Nat := ((rotr32 7 x) ^^^ (rotr32 18 x)) ^^^ (x >>> 3)

/-- SHA-256 small sigma-1: rotr 17 xor rotr 19 xor shr 10. -/
def ssig1 (x : Nat) : Nat := ((rotr32 17 x) ^^^ (rotr32 19 x)) ^^^ (x >>> 10)

/-- SHA-256 big Sigma-0: rotr 2 xor rotr 13 xor rotr 22. -/
def bsig0 (x : Nat) : Nat := ((rotr32 2 x) ^^^ (rotr32 13 x)) ^^^ (rotr32 22 x)

/-- SHA-256 big Sigma-1: rotr 6 xor rotr 11 xor rotr 25. -/
def bsig1 (x : Nat) : Nat := ((rotr32 6 x) ^^^ (rotr32 11 x)) ^^^ (rotr32 25 x)

/-- SHA-256 choice function: (x and y) xor ((not x) and z). -/
def chWord (x y z : Nat) : Nat := (x &&& y) ^^^ ((x ^^^ 4294967295) &&& z)

/-- SHA-256 majority function. -/
def majWord (x y z : Nat) : Nat := ((x &&& y) ^^^ (x &&& z)) ^^^ (y &&& z)

/-- The 64 SHA-256 round constants (FIPS 180-4), in decimal. -/
def sha256K : List Nat :=
  [1116352408, 1899447441, 3049323471, 3921009573, 961987163, 1508970993,
   2453635748, 2870763221, 3624381080, 310598401, 607225278, 1426881987,
   1925078388, 2162078206, 2614888103, 3248222580, 3835390401, 4022224774,
   264347078, 604807628, 770255983, 1249150122, 1555081692, 1996064986,
   2554220882, 2821834349, 2952996808, 3210313671, 3336571891, 3584528711,
   113926993, 338241895, 666307205, 773529912, 1294757372, 1396182291,
   1695183700, 1986661051, 2177026350, 2456956037, 2730485921, 2820302411,
   3259730800, 3345764771, 3516065817, 3600352804, 4094571909, 275423344,
   430227734, 506948616, 659060556, 883997877, 958139571, 1322822218,
   1537002063, 1747873779, 1955562222, 2024104815, 2227730452, 2361852424,
   2428436474, 2756734187, 3204031479, 3329325298]

/-- The SHA-256 initial hash state (FIPS 180-4), in decimal. -/
def sha256H0 : List Nat :=
  [1779033703, 3144134277, 1013904242, 2773480762,
   1359893119, 2600822924, 528734635, 1541459225]

/-- Fuel-indexed chunking helper; `fuel` bounds the number of chunks produced.
With `fuel = l.length` and a positive `size` this is exactly the source's
slicing loop. -/
def makeBatchesAux (size : Nat) : Nat → List α → List (List α)
  | 0, _ => []
  | _, [] => []
  | fuel + 1, l => l.take size :: makeBatchesAux size fuel (l.drop size)

/-- Split a list into consecutive chunks of `size` elements (last chunk may be
shorter).  Mirrors the `for (let i = 0; i < xs.length; i += batchSize)
batches.push(xs.slice(i, i + batchSize))` loop of the source; the source only
uses positive sizes (100 for embedding batches, 4 and 64 inside the hash). -/
def makeBatches (size : Nat) (l : List α) : List (List α) :=
  makeBatchesAux size l.length l

/-- Big-endian assembly of a list of bytes into 32-bit words (4 bytes each). -/
def bytesToWords (bytes : List Nat) : List Nat :=
  (makeBatches 4 bytes).map (fun b4 => b4.foldl (fun acc b => acc * 256 + b) 0)

/-- Extend the 16 message-schedule words to 64. -/
def sha256Schedule (w16 : List Nat) : List Nat :=
  (List.range 48).foldl
    (fun ws _ =>
      ws ++ [w32 (ssig1 (ws.getD (ws.length - 2) 0) + ws.getD (ws.length - 7) 0 +
                  ssig0 (ws.getD (ws.length - 15) 0) + ws.getD (ws.length - 16) 0)])
    w16

/-- One SHA-256 compression round; the state is the 8-word list [a,b,c,d,e,f,g,h]
and `wk` is the pair (schedule word, round constant). -/
def sha256Round (st : List Nat) (wk : Nat × Nat) : List Nat :=
  match st with
  | [a, b, c, d, e, f, g, h] =>
    let t1 := w32 (h + bsig1 e + chWord e f g + wk.2 + wk.1)
    let t2 := w32 (bsig0 a + majWord a b c)
    [w32 (t1 + t2), a, b, c, w32 (d + t1), e, f, g]
  | st => st

/-- Compress one 64-byte block into the running 8-word hash state. -/
def sha256Compress (hs : List Nat) (block : List Nat) : List Nat :=
  let ws := sha256Schedule (bytesToWords block)
  let st := (ws.zip sha256K).foldl sha256Round hs
  (hs.zip st).map (fun p => w32 (p.1 + p.2))

/-- SHA-256 padding: 0x80, zeros, then the 64-bit big-endian bit length. -/
def sha256Pad (msg : List Nat) : List Nat :=
  let bitLen := msg.length * 8
  let zeros := (64 - ((msg.length + 9) % 64)) % 64
  msg ++ [128] ++ List.replicate zeros 0 ++
    (List.range 8).map (fun i => (bitLen >>> (8 * (7 - i))) % 256)

/-- SHA-256 of a byte sequence, as the final 8-word state. -/
def sha256Words (msg : List Nat) : List Nat :=
  (makeBatches 64 (sha256Pad msg)).foldl sha256Compress sha256H0

/-- Lowercase hex digit for a value below 16. -/
def hexDigit (n : Nat) : Char := if n < 10 then Char.ofNat (48 + n) else Char.ofNat (87 + n)

/-- Eight lowercase hex digits of a 32-bit word, most significant first. -/
def word32Hex (n : Nat) : List Char := (List.range 8).map (fun i => hexDigit ((n >>> (4 * (7 - i))) % 16))

/-- UTF-8 encoding of one character as a byte list. -/
def charUtf8 (c : Char) : List Nat :=
  let n := c.toNat
  if n < 128 then [n]
  else if n < 2048 then [192 + n / 64, 128 + n % 64]
  else if n < 65536 then [224 + n / 4096, 128 + (n / 64) % 64, 128 + n % 64]
  else [240 + n / 262144, 128 + (n / 4096) % 64, 128 + (n / 64) % 64, 128 + n % 64]

/-- UTF-8 bytes of a string. -/
def utf8Bytes (s : String) : List Nat := (s.data.map charUtf8).flatten

/-- `crypto.createHash('sha256').update(content).digest('hex')`: the 64-character
lowercase hex SHA-256 digest of the UTF-8 bytes of `s`. -/
def sha256hex (s : String) : String := ⟨((sha256Words (utf8Bytes s)).map word32Hex).flatten⟩

/-- The character class matched by JavaScript's `\s` (whitespace, including
newlines): tab, LF, VT, FF, CR, space, NBSP, Ogham space, the U+2000 block,
line/paragraph separators, narrow NBSP, math space, ideographic space, BOM. -/
def isJsWhitespace (c : Char) : Bool :=
  c.toNat = 9 || c.toNat = 10 || c.toNat = 11 || c.toNat = 12 || c.toNat = 13 ||
  c.toNat = 32 || c.toNat = 160 || c.toNat = 5760 ||
  (8192 ≤ c.toNat && c.toNat ≤ 8202) ||
  c.toNat = 8232 || c.toNat = 8233 || c.toNat = 8239 || c.toNat = 8287 ||
  c.toNat = 12288 || c.toNat = 65279

/-- `fileContents.replace(/\s+/g, '')`: replacing every maximal whitespace run
with the empty string deletes exactly the whitespace characters. -/
def normalizeContent (s : String) : String :=
  ⟨s.data.filter (fun c => !isJsWhitespace c)⟩

/-- `GeminiRepository.computeCodehash`: SHA-256 hex digest of the
whitespace-normalized content. -/
def computeCodehash (fileContents : String) : String :=
  sha256hex (normalizeContent fileContents)

/-- One entry of `codehashCache`: the fingerprint of the rendered text together
with the embedding vector computed for it (`embedding.values` in the source). -/
structure CacheEntry where
  codehash : String
  embedding : List ℚ
deriving DecidableEq

/-- The in-memory `codehashCache` JS object: an insertion-ordered association
list from file path to entry, with unique keys. -/
abbrev Cache := List (String × CacheEntry)

/-- Property read `codehashCache[path]`. -/
def lookupCache (c : Cache) (p : String) : Option CacheEntry :=
  List.lookup p c

/-- Property write `codehashCache[path] = entry`: overwrite in place if the key
exists, append otherwise (JS object insertion-order semantics). -/
def insertCache : Cache → String → CacheEntry → Cache
  | [], p, e => [(p, e)]
  | (k, v) :: t, p, e => if k = p then (p, e) :: t else (k, v) :: insertCache t p e

/-- `Object.keys(this.codehashCache).length === 0`. -/
def cacheIsEmpty (c : Cache) : Bool := List.isEmpty c

/-- A Dart file as obtained from `vscode.workspace.findFiles` plus
`openTextDocument`: its URI path, workspace-relative path, and text content. -/
structure DartFile where
  path : String
  relativePath : String
  content : String
deriving DecidableEq

/-- Helper for `String.prototype.split('/')`: cut the character list at every
slash; `acc` holds the (reversed) characters of the current segment. -/
def splitOnSlashAux : List Char → List Char → List String
  | [], acc => [⟨acc.reverse⟩]
  | c :: rest, acc =>
    if c = '/' then ⟨acc.reverse⟩ :: splitOnSlashAux rest []
    else splitOnSlashAux rest (c :: acc)

/-- `path.split('/')`: always a nonempty list of (possibly empty) segments. -/
def splitOnSlash (s : String) : List String := splitOnSlashAux s.data []

/-- `file.path.split('/').pop()`: the last segment (`split` never returns an
empty array, so `pop` never yields `undefined`). -/
def fileBaseName (p : String) : String := (splitOnSlash p).getLastD ""

/-- JS `String.prototype.trim()`: strip leading and trailing whitespace
(the `\s` class). -/
def jsTrim (s : String) : String :=
  ⟨((s.data.dropWhile isJsWhitespace).reverse.dropWhile isJsWhitespace).reverse⟩

/-- The rendered text built for each Dart file (identity-bearing preamble plus
the raw content, fenced), exactly the template string of the source. -/
def renderText (f : DartFile) : String :=
  "File name: " ++ fileBaseName f.path ++ "\nFile path: " ++ f.relativePath ++
  "\nFile code:\n\n```dart\n" ++ f.content ++ "```\n\n------\n\n"

/-- The per-file record `{ text, path, codehash }` built in the read stage. -/
structure FileContent where
  text : String
  path : String
  codehash : String
deriving DecidableEq

/-- The read stage's record for one file: rendered text, path, and the codehash
of the rendered text. -/
def mkFileContent (f : DartFile) : FileContent :=
  { text := renderText f, path := f.path, codehash := computeCodehash (renderText f) }

/-- The diffing stage: keep exactly the files whose cached entry is missing or
whose cached codehash differs from the current one. -/
def filesToUpdate (cache : Cache) (fileContents : List FileContent) : List FileContent :=
  fileContents.filter fun fc =>
    match lookupCache cache fc.path with
    | none => true
    | some cachedEntry => cachedEntry.codehash != fc.codehash

/-- Merge one successfully embedded file into the cache:
`codehashCache[path] = { codehash, embedding }`, where the embedding is the one
the remote API returned for this file's text (`embedDoc` models the remote
document-embedding capability, with responses aligned to requests). -/
def mergeEmbedding (embedDoc : String → List ℚ) (c : Cache) (fc : FileContent) : Cache :=
  insertCache c fc.path { codehash := fc.codehash, embedding := embedDoc fc.text }

/-- The batch loop: each batch is tried independently; a successful batch
(`batchOk i = true`) merges all its entries into the cache, a failed one is
only logged and contributes nothing. -/
def processBatches (embedDoc : String → List ℚ) (batchOk : Nat → Bool)
    (batches : List (List FileContent)) (cache : Cache) : Cache :=
  batches.enum.foldl
    (fun c ib => if batchOk ib.1 then ib.2.foldl (mergeEmbedding embedDoc) c else c)
    cache

/-- `euclideanDistance(a, b)` squared, with JS array semantics: the loop runs
over the indices of `a`; reading `b[n]` past the end of `b` yields `undefined`,
arithmetic on which is `NaN` (modelled as `none`) and poisons the sum.  When
`a` is shorter than `b` the extra entries of `b` are silently ignored.
The source returns `Math.sqrt` of this value; `Math.sqrt` is monotone and
nonnegative, so order statements transfer through the square root. -/
def euclideanDistanceSq : List ℚ → List ℚ → Option ℚ
  | [], _ => some 0
  | _ :: _, [] => none
  | x :: xs, y :: ys => (euclideanDistanceSq xs ys).map (fun s => (x - y) ^ 2 + s)

/-- Comparator order on possibly-NaN distances used to model
`distances.sort((a, b) => a.distance - b.distance)`.  On numbers it is the
usual order; a comparator producing `NaN` has unspecified JS sort behaviour,
and `none` is placed first as a definite modelling choice (no claim depends on
it — under every ranking claim all distances are numbers). -/
def distLe : Option ℚ → Option ℚ → Bool
  | none, _ => true
  | some _, none => false
  | some a, some b => a ≤ b

/-- The comparator order lifted to the (file, distance) pairs the ranking
stage sorts. -/
def distRel (p q : DartFile × Option ℚ) : Prop := distLe p.2 q.2 = true

instance : DecidableRel distRel := fun p q => instDecidableEqBool (distLe p.2 q.2) true

instance : IsTrans (DartFile × Option ℚ) distRel :=
  ⟨fun a b c hab hbc => by
    unfold distRel at *
    rcases ha : a.2 with - | x <;> rcases hb : b.2 with - | y <;>
      rcases hc : c.2 with - | z <;> simp_all [distLe]
    exact le_trans hab hbc⟩

instance : IsTotal (DartFile × Option ℚ) distRel :=
  ⟨fun a b => by
    unfold distRel
    rcases ha : a.2 with - | x <;> rcases hb : b.2 with - | y <;> simp [distLe]
    exact le_total x y⟩

/-- The ranking lookup and distance map
`dartFiles.map(file => ({file, distance: euclideanDistance(codehashCache[file.path].embedding.values, queryEmbedding...)}))`:
the member access on a missing cache entry is a TypeError that aborts the whole
call, modelled as `none` for the whole stage. -/
def computeDistances (cache : Cache) (files : List DartFile) (queryVec : List ℚ) :
    Option (List (DartFile × Option ℚ)) :=
  match files with
  | [] => some []
  | f :: fs =>
    match lookupCache cache f.path with
    | none => none
    | some e =>
      (computeDistances cache fs queryVec).map
        (fun rest => (f, euclideanDistanceSq e.embedding queryVec) :: rest)

/-- Sort ascending by distance and take the first 5
(`distances.sort((a, b) => a.distance - b.distance)` then
`distances.slice(0, 5)`).  JS engines run a stable sort; it is modelled by the
(stable) insertion sort over the comparator order. -/
def rankCandidates (cache : Cache) (files : List DartFile) (queryVec : List ℚ) :
    Option (List (DartFile × Option ℚ)) :=
  (computeDistances cache files queryVec).map
    (fun ds => (List.insertionSort distRel ds).take 5)

/-- State of the persisted cache file as `loadCache` observes it:
`none` — `fs.existsSync` is false (no file);
`some none` — the file exists but `JSON.parse` throws (corrupt);
`some (some c)` — the file exists and deserializes to the mapping `c`. -/
abbrev DiskCache := Option (Option Cache)

/-- `GeminiRepository.loadCache`: read and parse the persisted cache inside a
try/catch whose handler only logs — a missing file or any load/parse error
leaves the in-memory cache unchanged, and no exception escapes. -/
def loadCache (disk : DiskCache) (current : Cache) : Cache :=
  match disk with
  | none => current
  | some none => current
  | some (some parsed) => parsed

deriving instance DecidableEq for Except

/-- A value thrown by the JS runtime: whether it is an `instanceof Error`, and
its message. -/
structure JsThrown where
  isErrorInstance : Bool
  message : String
deriving DecidableEq

/-- The user-facing message `handleError` raises when saving fails. -/
def saveCacheErrorMsg : String := "Failed to save the cache data."

/-- `GeminiRepository.saveCache`: `fs.promises.writeFile` inside a try/catch;
if the thrown value is an `Error` instance the handler calls `handleError`,
which logs and then THROWS `new Error('Failed to save the cache data.')`;
a non-`Error` thrown value is only logged and the method returns normally. -/
def saveCache (writeResult : Except JsThrown Unit) : Except String Unit :=
  match writeResult with
  | .ok _ => .ok ()
  | .error e => if e.isErrorInstance then .error saveCacheErrorMsg else .ok ()

/-- The error message thrown when the API key is unset. -/
def apiKeyErrorMsg : String :=
  "API token not set, please go to extension settings to set it (read README.md for more info)"

/-- The message of the TypeError raised by reading `.embedding` of a missing
cache entry during the distance map. -/
def missingEntryErrorMsg : String :=
  "TypeError: Cannot read properties of undefined (reading 'embedding')"

/-- Observable side effects of one `findClosestDartFiles` call, in order.
File I/O effects are `loadCacheFile`, `findFiles`, `readFile`, `writeCacheFile`;
the remote calls are `embedBatch` and `embedQuery`. -/
inductive Effect where
  | loadCacheFile : Effect
  | findFiles : Effect
  | readFile : String → Effect
  | embedBatch : Nat → Effect
  | writeCacheFile : Effect
  | embedQuery : Effect
deriving DecidableEq

/-- The environment and external outcomes one `findClosestDartFiles` call runs
against: the credential, the in-memory cache at call entry, the persisted
cache file, the workspace's Dart files, the remote embedding capability
(`embedDoc` for documents, `queryEmbedding` for the query, with per-batch
success in `batchOk`), and the outcome of the cache write. -/
structure RetrievalInput where
  apiKey : Option String
  memCache : Cache
  diskCache : DiskCache
  dartFiles : List DartFile
  embedDoc : String → List ℚ
  batchOk : Nat → Bool
  queryEmbedding : List ℚ
  writeResult : Except JsThrown Unit

/-- `fileContents.find(fc => fc.path === p)?.text`, concatenated with `+=`:
a missing find yields `undefined`, which `+=` renders as the string
"undefined" (unreachable in practice since every ranked file was read). -/
def lookupText (fileContents : List FileContent) (p : String) : String :=
  ((fileContents.find? (fun fc => fc.path == p)).map (fun fc => fc.text)).getD "undefined"

/-- `GeminiRepository.findClosestDartFiles`, lines 142-261 of the source, as a
function from the call's environment to its outcome (`.ok` result string or
`.error` message — the outer catch logs and rethrows, so errors pass through)
paired with the ordered trace of side effects the call performed.  The
5-second progress timer only posts a webview message and never alters the
result, so it is not modelled. -/
def findClosestDartFiles (inp : RetrievalInput) : Except String String × List Effect :=
  match inp.apiKey with
  | none => (.error apiKeyErrorMsg, [])
  | some _ =>
    -- Load cache if not already loaded
    let loadStep : Cache × List Effect :=
      if cacheIsEmpty inp.memCache then
        (loadCache inp.diskCache inp.memCache, [Effect.loadCacheFile])
      else (inp.memCache, [])
    let cache0 := loadStep.1
    -- Find all Dart files, read each and compute codehash
    let tr1 := loadStep.2 ++ [Effect.findFiles] ++
      inp.dartFiles.map (fun f => Effect.readFile f.path)
    let fileContents := inp.dartFiles.map mkFileContent
    -- Diff against the cache and batch the stale-or-missing files
    let toUpdate := filesToUpdate cache0 fileContents
    let batches := makeBatches 100 toUpdate
    -- Per-batch embedding with per-batch error recovery
    let cache1 := processBatches inp.embedDoc inp.batchOk batches cache0
    let tr2 := tr1 ++ batches.enum.map (fun ib => Effect.embedBatch ib.1)
    -- Save updated cache
    match saveCache inp.writeResult with
    | .error msg => (.error msg, tr2 ++ [Effect.writeCacheFile])
    | .ok _ =>
      let tr3 := tr2 ++ [Effect.writeCacheFile, Effect.embedQuery]
      -- Distance of every listed file to the query embedding, sort, take 5
      match rankCandidates cache1 inp.dartFiles inp.queryEmbedding with
      | none => (.error missingEntryErrorMsg, tr3)
      | some top =>
        let resultString := top.foldl (fun s p => s ++ lookupText fileContents p.1.path) ""
        (.ok (jsTrim resultString), tr3)

/-- Concrete fixture: a workspace Dart file. -/
def fileA : DartFile := { path := "/w/a.dart", relativePath := "a.dart", content := "class A" }

/-- Concrete fixture: a second workspace Dart file. -/
def fileB : DartFile := { path := "/w/b.dart", relativePath := "b.dart", content := "class B" }

/-- Concrete fixture: a cache holding embeddings for both fixture files. -/
def rankCache : Cache :=
  [(fileA.path, { codehash := "ha", embedding := [1, 2] }),
   (fileB.path, { codehash := "hb", embedding := [3, 4] })]

/-- Concrete call environment for an embedding-batch failure: one uncached
file, its (single) batch fails. -/
def c1Input : RetrievalInput :=
  { apiKey := some "key", memCache := [], diskCache := none,
    dartFiles := [fileA], embedDoc := fun _ => [1], batchOk := fun _ => false,
    queryEmbedding := [1], writeResult := Except.ok () }

/-- Concrete call environment for an embedding-batch failure over a file that
still has a stale prior cache entry (codehash "stale", vector [7]). -/
def c1StaleInput : RetrievalInput :=
  { apiKey := some "key",
    memCache := [(fileA.path, { codehash := "stale", embedding := [7] })],
    diskCache := none, dartFiles := [fileA], embedDoc := fun _ => [1],
    batchOk := fun _ => false, queryEmbedding := [7], writeResult := Except.ok () }

/-- Concrete call environment in which the cache write fails with an
`Error` instance (e.g. permission denied). -/
def c2Input : RetrievalInput :=
  { apiKey := some "key", memCache := [], diskCache := none, dartFiles := [],
    embedDoc := fun _ => [], batchOk := fun _ => true, queryEmbedding := [],
    writeResult := Except.error { isErrorInstance := true, message := "EACCES: permission denied" } }

/-! ## Validation of the hash embedding against the official SHA-256 test
vectors -/

set_option maxRecDepth 4000 in
/-- `sha256hex` matches the official digest of the empty message. -/
theorem sha256hex_empty_vector :
    sha256hex "" = "e3b0c44298fc1c149afbf4c8996fb92427ae41e4649b934ca495991b7852b855" := by decide

set_option maxRecDepth 4000 in
/-- `sha256hex` matches the official digest of "abc". -/
theorem sha256hex_abc_vector :
    sha256hex "abc" = "ba7816bf8f01cfea414140de5dae2223b00361a396177a9cb410ff61f20015ad" := by decide

/-! ### Cache lookup/insert lemmas -/

theorem lookupCache_insert_self (c : Cache) (p : String) (e : CacheEntry) :
    lookupCache (insertCache c p e) p = some e := by
  induction c with
  | nil => simp [insertCache, lookupCache, List.lookup_cons]
  | cons a t ih =>
    obtain ⟨k, v⟩ := a
    by_cases hp : k = p
    · subst hp
      simp [insertCache, lookupCache, List.lookup_cons]
    · have hne : (p == k) = false := by
        simp only [beq_eq_false_iff_ne]
        exact fun hh => hp hh.symm
      simpa [insertCache, lookupCache, hp, List.lookup_cons, hne] using ih

theorem lookupCache_insert_ne (c : Cache) (p q : String) (e : CacheEntry) (h : q ≠ p) :
    lookupCache (insertCache c p e) q = lookupCache c q := by
  induction c with
  | nil =>
    have hne : (q == p) = false := by simp [beq_eq_false_iff_ne, h]
    simp [insertCache, lookupCache, List.lookup_cons, hne]
  | cons a t ih =>
    obtain ⟨k, v⟩ := a
    by_cases hp : k = p
    · subst hp
      have hne : (q == k) = false := by simp [beq_eq_false_iff_ne, h]
      simp [insertCache, lookupCache, List.lookup_cons, hne]
    · cases hqk : (q == k) with
      | true =>
        simp [insertCache, lookupCache, hp, List.lookup_cons, hqk]
      | false =>
        simpa [insertCache, lookupCache, hp, List.lookup_cons, hqk] using ih

/-- Reading a key out of `insertCache` either hits the freshly written entry
(at the written key) or falls through to the old cache. -/
theorem lookupCache_insert_cases (c : Cache) (p q : String) (e ent : CacheEntry)
    (h : lookupCache (insertCache c q ent) p = some e) :
    (p = q ∧ e = ent) ∨ lookupCache c p = some e := by
  by_cases hpq : p = q
  · subst hpq
    rw [lookupCache_insert_self] at h
    exact Or.inl ⟨rfl, (Option.some.injEq _ _ ▸ h).symm⟩
  · rw [lookupCache_insert_ne c q p ent hpq] at h
    exact Or.inr h

/-! ### Euclidean distance lemmas -/

/-- When the first vector is no longer than the second, the JS loop never reads
past the end of either array: the result is an ordinary nonnegative number. -/
theorem euclideanDistanceSq_some_of_le (a b : List ℚ) (h : a.length ≤ b.length) :
    ∃ q, euclideanDistanceSq a b = some q ∧ 0 ≤ q := by
  induction a generalizing b with
  | nil => exact ⟨0, rfl, le_refl 0⟩
  | cons x xs ih =>
    cases b with
    | nil => simp at h
    | cons y ys =>
      simp only [List.length_cons, Nat.add_le_add_iff_right] at h
      obtain ⟨q, hq, hq0⟩ := ih ys h
      refine ⟨(x - y) ^ 2 + q, ?_, ?_⟩
      · simp [euclideanDistanceSq, hq]
      · have := sq_nonneg (x - y)
        linarith

/-- The loop reads `b[n]` for every `n < a.length`; as soon as `b` is shorter
than `a` one read is `undefined` and the whole sum is NaN. -/
theorem euclideanDistanceSq_none_of_lt (a b : List ℚ) (h : b.length < a.length) :
    euclideanDistanceSq a b = none := by
  induction a generalizing b with
  | nil => simp at h
  | cons x xs ih =>
    cases b with
    | nil => rfl
    | cons y ys =>
      simp only [List.length_cons, Nat.add_lt_add_iff_right] at h
      simp [euclideanDistanceSq, ih ys h]

/-- A vector is at squared distance 0 from itself. -/
theorem euclideanDistanceSq_self (v : List ℚ) : euclideanDistanceSq v v = some 0 := by
  induction v with
  | nil => rfl
  | cons x xs ih => simp [euclideanDistanceSq, ih]

/-- For equal-length vectors, squared distance 0 forces equality. -/
theorem euclideanDistanceSq_eq_zero (a b : List ℚ) (hlen : a.length = b.length)
    (h : euclideanDistanceSq a b = some 0) : a = b := by
  induction a generalizing b with
  | nil =>
    cases b with
    | nil => rfl
    | cons y ys => simp at hlen
  | cons x xs ih =>
    cases b with
    | nil => simp at hlen
    | cons y ys =>
      simp only [List.length_cons, Nat.add_right_cancel_iff] at hlen
      obtain ⟨q, hq, hq0⟩ :=
        euclideanDistanceSq_some_of_le xs ys (le_of_eq hlen)
      simp only [euclideanDistanceSq, hq] at h
      have hsum : (x - y) ^ 2 + q = 0 := by simpa using h
      have hsq : (0:ℚ) ≤ (x - y) ^ 2 := sq_nonneg _
      have hx : (x - y) ^ 2 = 0 ∧ q = 0 := by constructor <;> linarith
      have hxy : x = y := by
        have := pow_eq_zero_iff (n := 2) (by norm_num) |>.mp hx.1
        linarith [this]
      have : xs = ys := ih ys hlen (hx.2 ▸ hq)
      rw [hxy, this]

/-! ### Comparator order lemmas -/

theorem distLe_trans (x y z : Option ℚ) (h1 : distLe x y) (h2 : distLe y z) : distLe x z := by
  cases x <;> cases y <;> cases z <;> simp_all [distLe]
  exact le_trans h1 h2

theorem distLe_total (x y : Option ℚ) : distLe x y || distLe y x := by
  cases x <;> cases y <;> simp [distLe, le_total]

/-! ### Batching lemmas -/

theorem flatten_makeBatchesAux (size : Nat) (hsize : size ≠ 0) :
    ∀ (fuel : Nat) (l : List α), l.length ≤ fuel → (makeBatchesAux size fuel l).flatten = l := by
  intro fuel
  induction fuel with
  | zero =>
    intro l hl
    have : l = [] := List.length_eq_zero.mp (Nat.le_zero.mp hl)
    subst this
    rfl
  | succ n ih =>
    intro l hl
    cases l with
    | nil => rfl
    | cons x xs =>
      have hdrop : ((x :: xs).drop size).length ≤ n := by
        simp only [List.length_drop, List.length_cons]
        simp only [List.length_cons] at hl
        omega
      simp only [makeBatchesAux, List.flatten_cons, ih _ hdrop, List.take_append_drop]

/-- Chunking and re-concatenating is the identity (for positive chunk size). -/
theorem flatten_makeBatches (size : Nat) (hsize : size ≠ 0) (l : List α) :
    (makeBatches size l).flatten = l :=
  flatten_makeBatchesAux size hsize l.length l (le_refl _)

/-- With every batch succeeding, the batch loop is a plain left fold of the
merge over the concatenation of the batches. -/
theorem processBatches_allOk (embedDoc : String → List ℚ)
    (batches : List (List FileContent)) (cache : Cache) :
    processBatches embedDoc (fun _ => true) batches cache =
      batches.flatten.foldl (mergeEmbedding embedDoc) cache := by
  unfold processBatches
  suffices h : ∀ (n : Nat) (bs : List (List FileContent)) (c : Cache),
      (List.enumFrom n bs).foldl
        (fun c ib => if (fun _ => true) ib.1 then ib.2.foldl (mergeEmbedding embedDoc) c else c) c =
      bs.flatten.foldl (mergeEmbedding embedDoc) c by
    exact h 0 batches cache
  intro n bs
  induction bs generalizing n with
  | nil => intro c; rfl
  | cons b t ih =>
    intro c
    simp only [List.enumFrom, List.foldl_cons, if_true, List.flatten_cons, List.foldl_append]
    exact ih (n + 1) _

/-! ### Merge-fold lemmas -/

theorem lookup_foldl_merge_notmem (embedDoc : String → List ℚ) (l : List FileContent)
    (c : Cache) (p : String) (h : ∀ fc ∈ l, fc.path ≠ p) :
    lookupCache (l.foldl (mergeEmbedding embedDoc) c) p = lookupCache c p := by
  induction l generalizing c with
  | nil => rfl
  | cons a t ih =>
    simp only [List.foldl_cons]
    rw [ih _ (fun fc hf => h fc (List.mem_cons_of_mem a hf))]
    exact lookupCache_insert_ne c a.path p _
      (fun hpq => (h a (List.mem_cons_self a t)) hpq.symm)

theorem lookup_foldl_merge_mem (embedDoc : String → List ℚ) (l : List FileContent)
    (c : Cache) (fc : FileContent)
    (hnodup : (l.map (fun x => x.path)).Nodup) (hmem : fc ∈ l) :
    lookupCache (l.foldl (mergeEmbedding embedDoc) c) fc.path =
      some { codehash := fc.codehash, embedding := embedDoc fc.text } := by
  induction l generalizing c with
  | nil => cases hmem
  | cons a t ih =>
    simp only [List.map_cons, List.nodup_cons] at hnodup
    rcases List.mem_cons.mp hmem with rfl | hmem2
    · simp only [List.foldl_cons]
      rw [lookup_foldl_merge_notmem embedDoc t _ fc.path
        (fun x hx hxp => hnodup.1 (hxp ▸ List.mem_map_of_mem (fun y => y.path) hx))]
      exact lookupCache_insert_self c fc.path _
    · exact ih _ hnodup.2 hmem2

theorem lookup_foldl_merge_cases (embedDoc : String → List ℚ) (l : List FileContent)
    (c : Cache) (p : String) (e : CacheEntry)
    (h : lookupCache (l.foldl (mergeEmbedding embedDoc) c) p = some e) :
    lookupCache c p = some e ∨
      ∃ fc ∈ l, e = { codehash := fc.codehash, embedding := embedDoc fc.text } := by
  induction l generalizing c with
  | nil => exact Or.inl h
  | cons a t ih =>
    simp only [List.foldl_cons] at h
    rcases ih _ h with h2 | ⟨fc, hfc, rfl⟩
    · rcases lookupCache_insert_cases c p a.path e _ h2 with ⟨hpq, rfl⟩ | h3
      · exact Or.inr ⟨a, List.mem_cons_self a t, rfl⟩
      · exact Or.inl h3
    · exact Or.inr ⟨fc, List.mem_cons_of_mem a hfc, rfl⟩

theorem lookup_processBatches_cases (embedDoc : String → List ℚ) (batchOk : Nat → Bool)
    (batches : List (List FileContent)) (cache : Cache) (p : String) (e : CacheEntry)
    (h : lookupCache (processBatches embedDoc batchOk batches cache) p = some e) :
    lookupCache cache p = some e ∨
      ∃ b ∈ batches, ∃ fc ∈ b, e = { codehash := fc.codehash, embedding := embedDoc fc.text } := by
  unfold processBatches at h
  suffices hgen : ∀ (n : Nat) (bs : List (List FileContent)) (c : Cache),
      lookupCache ((List.enumFrom n bs).foldl
        (fun c ib => if batchOk ib.1 then ib.2.foldl (mergeEmbedding embedDoc) c else c) c) p = some e →
      lookupCache c p = some e ∨
        ∃ b ∈ bs, ∃ fc ∈ b, e = { codehash := fc.codehash, embedding := embedDoc fc.text } by
    exact hgen 0 batches cache h
  intro n bs
  induction bs generalizing n with
  | nil => exact fun c hc => Or.inl hc
  | cons b t ih =>
    intro c hc
    simp only [List.enumFrom, List.foldl_cons] at hc
    rcases ih (n + 1) _ hc with h2 | ⟨b2, hb2, fc, hfc, rfl⟩
    · by_cases hok : batchOk n
      · simp only [hok, if_true] at h2
        rcases lookup_foldl_merge_cases embedDoc b c p e h2 with h3 | ⟨fc, hfc, rfl⟩
        · exact Or.inl h3
        · exact Or.inr ⟨b, List.mem_cons_self b t, fc, hfc, rfl⟩
      · simp only [hok, if_false] at h2
        exact Or.inl h2
    · exact Or.inr ⟨b2, List.mem_cons_of_mem b hb2, fc, hfc, rfl⟩

/-! ### Distance-map lemmas -/

theorem computeDistances_spec (cache : Cache) (files : List DartFile) (qv : List ℚ)
    (h : ∀ f ∈ files, (lookupCache cache f.path).isSome) :
    ∃ ds, computeDistances cache files qv = some ds ∧
      ds.length = files.length ∧
      (∀ p ∈ ds, ∃ e, p.1 ∈ files ∧ lookupCache cache p.1.path = some e ∧
        p.2 = euclideanDistanceSq e.embedding qv) ∧
      (∀ f ∈ files, ∀ e, lookupCache cache f.path = some e →
        (f, euclideanDistanceSq e.embedding qv) ∈ ds) := by
  induction files with
  | nil => exact ⟨[], rfl, rfl, by simp, by simp⟩
  | cons f fs ih =>
    have hf := h f (List.mem_cons_self f fs)
    obtain ⟨e, he⟩ := Option.isSome_iff_exists.mp hf
    obtain ⟨ds, hds, hlen, hmem, hall⟩ := ih (fun g hg => h g (List.mem_cons_of_mem f hg))
    refine ⟨(f, euclideanDistanceSq e.embedding qv) :: ds, ?_, ?_, ?_, ?_⟩
    · simp [computeDistances, he, hds]
    · simp [hlen]
    · intro p hp
      rcases List.mem_cons.mp hp with rfl | hp2
      · exact ⟨e, List.mem_cons_self f fs, he, rfl⟩
      · obtain ⟨e2, h1, h2, h3⟩ := hmem p hp2
        exact ⟨e2, List.mem_cons_of_mem f h1, h2, h3⟩
    · intro g hg e2 he2
      rcases List.mem_cons.mp hg with rfl | hg2
      · rw [he] at he2
        cases he2
        exact List.mem_cons_self _ _
      · exact List.mem_cons_of_mem _ (hall g hg2 e2 he2)

/-! ## Claim theorems -/

/-- **C3 counterexample.**  The claim says a dimension mismatch is always fatal
and never silently truncated to an ordinary distance value.  But
`euclideanDistance` loops only over the indices of its first argument: for a
candidate vector strictly shorter than the query vector, the extra query
coordinates are silently ignored and an ordinary (squared) distance — here 0 —
is returned. -/
theorem c3_counterexample :
    [(1 : ℚ)].length ≠ [(1 : ℚ), 5].length ∧
    euclideanDistanceSq [(1 : ℚ)] [(1 : ℚ), 5] = some 0 := by
  refine ⟨by decide, ?_⟩
  show Option.map _ (some 0) = some 0
  norm_num

/-- **C3 (amended).**  What the code actually does on a length mismatch:
if the first vector is longer than the second, the loop reads `undefined`
and the result is NaN (no ordinary distance value is produced); if the first
vector is shorter, the computation silently truncates the second vector to the
first one's length and returns an ordinary nonnegative (squared) distance. -/
theorem c3_amended (a b : List ℚ) :
    (b.length < a.length → euclideanDistanceSq a b = none) ∧
    (a.length ≤ b.length →
      euclideanDistanceSq a b = euclideanDistanceSq a (b.take a.length) ∧
      ∃ q, euclideanDistanceSq a b = some q ∧ 0 ≤ q) := by
  constructor
  · exact euclideanDistanceSq_none_of_lt a b
  · intro hle
    constructor
    · induction a generalizing b with
      | nil => rfl
      | cons x xs ih =>
        cases b with
        | nil => simp at hle
        | cons y ys =>
          simp only [List.length_cons, Nat.add_le_add_iff_right] at hle
          simp only [euclideanDistanceSq, List.length_cons, List.take_succ_cons]
          rw [ih ys hle]
    · exact euclideanDistanceSq_some_of_le a b hle

/-- **C3 amended witness.** -/
theorem c3_amended_witness :
    [(1 : ℚ)].length ≤ [(1 : ℚ), 5].length ∧
    (euclideanDistanceSq [(1 : ℚ)] [(1 : ℚ), 5] =
       euclideanDistanceSq [(1 : ℚ)] ([(1 : ℚ), 5].take [(1 : ℚ)].length) ∧
     ∃ q, euclideanDistanceSq [(1 : ℚ)] [(1 : ℚ), 5] = some q ∧ 0 ≤ q) :=
  ⟨by decide, (c3_amended [(1 : ℚ)] [(1 : ℚ), 5]).2 (by decide)⟩

set_option maxRecDepth 4000 in
/-- **C4.**  `computeCodehash` is a pure Lean function, hence deterministic.
Two texts that differ only in whitespace — i.e. whose non-whitespace character
sequences agree — get the same fingerprint, because the source strips every
`\s` character (`replace(/\s+/g, '')`) before hashing; and the empty string is
hashed without error to the usual 64-hex-character digest. -/
theorem c4_fingerprint_stability (t1 t2 : String)
    (h : t1.data.filter (fun c => !isJsWhitespace c) =
         t2.data.filter (fun c => !isJsWhitespace c)) :
    computeCodehash t1 = computeCodehash t2 ∧ (computeCodehash "").length = 64 := by
  constructor
  · unfold computeCodehash normalizeContent
    rw [h]
  · decide

set_option maxRecDepth 4000 in
/-- **C4 witness**: "a b\nc" and "ab c" differ only in whitespace. -/
theorem c4_fingerprint_stability_witness :
    "a b\nc".data.filter (fun c => !isJsWhitespace c) =
      "ab c".data.filter (fun c => !isJsWhitespace c) ∧
    (computeCodehash "a b\nc" = computeCodehash "ab c" ∧
      (computeCodehash "").length = 64) :=
  ⟨by decide, c4_fingerprint_stability "a b\nc" "ab c" (by decide)⟩

/-- **C5.**  `loadCache` catches every load/parse failure and only logs it:
whether the cache file is missing or corrupt, the in-memory cache is left
exactly as it was (the empty mapping on a fresh call), no exception reaches
the retrieval caller, and the whole retrieval call behaves identically to a
call with no cache file at all. -/
theorem c5_load_fail_open (inp : RetrievalInput) (current : Cache)
    (hd : inp.diskCache = none ∨ inp.diskCache = some none) :
    loadCache inp.diskCache current = current ∧
    findClosestDartFiles inp = findClosestDartFiles { inp with diskCache := none } := by
  obtain ⟨ak, mc, dc, df, ed, bo, qe, wr⟩ := inp
  simp only at hd
  rcases hd with rfl | rfl
  · exact ⟨rfl, rfl⟩
  · refine ⟨rfl, ?_⟩
    cases ak with
    | none => rfl
    | some k => rfl

/-- **C5 witness**: a concrete call with a corrupt cache file. -/
theorem c5_load_fail_open_witness :
    ((({ apiKey := some "k", memCache := [], diskCache := some none, dartFiles := [],
         embedDoc := fun _ => [], batchOk := fun _ => true, queryEmbedding := [],
         writeResult := Except.ok () } : RetrievalInput)).diskCache = none ∨
      (({ apiKey := some "k", memCache := [], diskCache := some none, dartFiles := [],
          embedDoc := fun _ => [], batchOk := fun _ => true, queryEmbedding := [],
          writeResult := Except.ok () } : RetrievalInput)).diskCache = some none) ∧
    (loadCache (some none) [] = [] ∧
      findClosestDartFiles
        { apiKey := some "k", memCache := [], diskCache := some none, dartFiles := [],
          embedDoc := fun _ => [], batchOk := fun _ => true, queryEmbedding := [],
          writeResult := Except.ok () } =
      findClosestDartFiles
        { apiKey := some "k", memCache := [], diskCache := none, dartFiles := [],
          embedDoc := fun _ => [], batchOk := fun _ => true, queryEmbedding := [],
          writeResult := Except.ok () }) :=
  ⟨Or.inr rfl,
    c5_load_fail_open
      { apiKey := some "k", memCache := [], diskCache := some none, dartFiles := [],
        embedDoc := fun _ => [], batchOk := fun _ => true, queryEmbedding := [],
        writeResult := Except.ok () } [] (Or.inr rfl)⟩

/-- **C9.**  If the API key is missing, `findClosestDartFiles` throws the
configuration error at the top of its `try` block, before the cache load, the
workspace file enumeration, and the per-file reads: the result is the
configuration error and the effect trace is empty — no file I/O was attempted. -/
theorem c9_missing_key_failfast (inp : RetrievalInput) (h : inp.apiKey = none) :
    findClosestDartFiles inp = (Except.error apiKeyErrorMsg, []) := by
  unfold findClosestDartFiles
  rw [h]

/-- **C9 witness.** -/
theorem c9_missing_key_failfast_witness :
    (({ apiKey := none, memCache := [], diskCache := none,
        dartFiles := [{ path := "/w/a.dart", relativePath := "a.dart", content := "x" }],
        embedDoc := fun _ => [], batchOk := fun _ => true, queryEmbedding := [],
        writeResult := Except.ok () } : RetrievalInput)).apiKey = none ∧
    findClosestDartFiles
      { apiKey := none, memCache := [], diskCache := none,
        dartFiles := [{ path := "/w/a.dart", relativePath := "a.dart", content := "x" }],
        embedDoc := fun _ => [], batchOk := fun _ => true, queryEmbedding := [],
        writeResult := Except.ok () } = (Except.error apiKeyErrorMsg, []) :=
  ⟨rfl,
    c9_missing_key_failfast
      { apiKey := none, memCache := [], diskCache := none,
        dartFiles := [{ path := "/w/a.dart", relativePath := "a.dart", content := "x" }],
        embedDoc := fun _ => [], batchOk := fun _ => true, queryEmbedding := [],
        writeResult := Except.ok () } rfl⟩

/-- The comparator order used by the ranking sort is transitive and total, so
the sort yields a list pairwise ordered by it. -/
theorem sorted_by_distRel (ds : List (DartFile × Option ℚ)) :
    List.Pairwise distRel (List.insertionSort distRel ds) :=
  List.sorted_insertionSort distRel ds

/-- **C6.**  With every candidate having a cached vector of the query's
dimension, the ranking stage computes the L2 distance of every candidate to
the query, every (squared) distance is an ordinary nonnegative number, the
output is sorted by non-decreasing distance (stated through the monotone
`Real.sqrt`, since the source reports `Math.sqrt` of the squared sum), and at
most `min 5 (number of candidates)` results are returned (`k = 5`). -/
theorem c6_ranking_topk (cache : Cache) (files : List DartFile) (qv : List ℚ)
    (h : ∀ f ∈ files, ∃ e, lookupCache cache f.path = some e ∧
      e.embedding.length = qv.length) :
    ∃ top, rankCandidates cache files qv = some top ∧
      top.length ≤ min 5 files.length ∧
      (∀ p ∈ top, ∃ q, p.2 = some q ∧ 0 ≤ q) ∧
      List.Pairwise (fun p1 p2 => ∀ (q1 q2 : ℚ), p1.2 = some q1 → p2.2 = some q2 →
        Real.sqrt (q1 : ℝ) ≤ Real.sqrt (q2 : ℝ)) top := by
  have hsome : ∀ f ∈ files, (lookupCache cache f.path).isSome := by
    intro f hf
    obtain ⟨e, he, -⟩ := h f hf
    simp [he]
  obtain ⟨ds, hds, hlen, hmem, -⟩ := computeDistances_spec cache files qv hsome
  refine ⟨(List.insertionSort distRel ds).take 5, ?_, ?_, ?_, ?_⟩
  · simp [rankCandidates, hds]
  · rw [List.length_take, List.length_insertionSort, hlen]
  · intro p hp
    have hpds : p ∈ ds := (List.mem_insertionSort distRel).mp (List.mem_of_mem_take hp)
    obtain ⟨e, hpf, hpe, hp2⟩ := hmem p hpds
    obtain ⟨e2, he2, hlen2⟩ := h p.1 hpf
    rw [hpe] at he2
    cases he2
    obtain ⟨q, hq, hq0⟩ := euclideanDistanceSq_some_of_le e.embedding qv (le_of_eq hlen2)
    exact ⟨q, hp2.trans hq, hq0⟩
  · apply List.Pairwise.imp ?_
      (List.Pairwise.sublist (List.take_sublist 5 _) (sorted_by_distRel ds))
    intro a b hab q1 q2 hq1 hq2
    unfold distRel at hab
    rw [hq1, hq2] at hab
    have hqle : q1 ≤ q2 := by simpa [distLe] using hab
    exact Real.sqrt_le_sqrt (by exact_mod_cast hqle)

/-- **C7.**  If exactly one candidate's cached vector coincides with the query
vector (and every candidate has a vector of the query's dimension), that
candidate is ranked first, at (squared) distance 0. -/
theorem c7_exact_match_first (cache : Cache) (files : List DartFile) (qv : List ℚ)
    (f0 : DartFile) (e0 : CacheEntry)
    (hmem : f0 ∈ files)
    (h : ∀ f ∈ files, ∃ e, lookupCache cache f.path = some e ∧
      e.embedding.length = qv.length)
    (h0 : lookupCache cache f0.path = some e0)
    (he0 : e0.embedding = qv)
    (hothers : ∀ f ∈ files, f ≠ f0 → ∀ e, lookupCache cache f.path = some e →
      e.embedding ≠ qv) :
    ∃ top p0, rankCandidates cache files qv = some top ∧
      top.head? = some p0 ∧ p0.1 = f0 ∧ p0.2 = some 0 := by
  have hsome : ∀ f ∈ files, (lookupCache cache f.path).isSome := by
    intro f hf
    obtain ⟨e, he, -⟩ := h f hf
    simp [he]
  obtain ⟨ds, hds, -, hmemds, hall⟩ := computeDistances_spec cache files qv hsome
  have hf0 : (f0, euclideanDistanceSq e0.embedding qv) ∈ ds := hall f0 hmem e0 h0
  rw [he0, euclideanDistanceSq_self] at hf0
  have hperm : (f0, some (0 : ℚ)) ∈ List.insertionSort distRel ds :=
    (List.mem_insertionSort distRel).mpr hf0
  cases hs : List.insertionSort distRel ds with
  | nil => rw [hs] at hperm; cases hperm
  | cons p0 rest =>
    have key : p0.1 = f0 ∧ p0.2 = some 0 := by
      have hp0ds : p0 ∈ ds :=
        (List.mem_insertionSort distRel).mp (hs ▸ List.mem_cons_self p0 rest)
      obtain ⟨e, hp0f, hpe, hp2⟩ := hmemds p0 hp0ds
      obtain ⟨e2, he2, hlen2⟩ := h p0.1 hp0f
      rw [hpe] at he2
      cases he2
      obtain ⟨q, hq, hq0⟩ := euclideanDistanceSq_some_of_le e.embedding qv (le_of_eq hlen2)
      have hp0some : p0.2 = some q := hp2.trans hq
      rw [hs] at hperm
      rcases List.mem_cons.mp hperm with heq | hrest
      · exact ⟨congrArg Prod.fst heq.symm, congrArg Prod.snd heq.symm⟩
      · have hsorted := sorted_by_distRel ds
        rw [hs] at hsorted
        have hle : distLe p0.2 (some 0) = true :=
          (List.pairwise_cons.mp hsorted).1 _ hrest
        rw [hp0some] at hle
        have hq0' : q ≤ 0 := by simpa [distLe] using hle
        have hqz : q = 0 := le_antisymm hq0' hq0
        by_cases hpf0 : p0.1 = f0
        · exact ⟨hpf0, by rw [hp0some, hqz]⟩
        · have hzero : euclideanDistanceSq e.embedding qv = some 0 := by
            rw [hq, hqz]
          have : e.embedding = qv :=
            euclideanDistanceSq_eq_zero e.embedding qv hlen2 hzero
          exact absurd this (hothers p0.1 hp0f hpf0 e hpe)
    refine ⟨(List.insertionSort distRel ds).take 5, p0, ?_, ?_, key.1, key.2⟩
    · simp [rankCandidates, hds]
    · rw [hs]
      rfl

/-- **C6 witness**: two cached candidates against a 2-dimensional query. -/
theorem c6_ranking_topk_witness :
    (∀ f ∈ [fileA, fileB], ∃ e, lookupCache rankCache f.path = some e ∧
      e.embedding.length = [(1 : ℚ), 1].length) ∧
    (∃ top, rankCandidates rankCache [fileA, fileB] [(1 : ℚ), 1] = some top ∧
      top.length ≤ min 5 [fileA, fileB].length ∧
      (∀ p ∈ top, ∃ q, p.2 = some q ∧ 0 ≤ q) ∧
      List.Pairwise (fun p1 p2 => ∀ (q1 q2 : ℚ), p1.2 = some q1 → p2.2 = some q2 →
        Real.sqrt (q1 : ℝ) ≤ Real.sqrt (q2 : ℝ)) top) := by
  have hyp : ∀ f ∈ [fileA, fileB], ∃ e, lookupCache rankCache f.path = some e ∧
      e.embedding.length = [(1 : ℚ), 1].length := by
    intro f hf
    rcases List.mem_cons.mp hf with rfl | hf2
    · exact ⟨{ codehash := "ha", embedding := [1, 2] }, rfl, rfl⟩
    rcases List.mem_cons.mp hf2 with rfl | hf3
    · exact ⟨{ codehash := "hb", embedding := [3, 4] }, rfl, rfl⟩
    cases hf3
  exact ⟨hyp, c6_ranking_topk rankCache [fileA, fileB] [(1 : ℚ), 1] hyp⟩

/-- **C7 witness**: the query vector coincides with `fileA`'s cached vector. -/
theorem c7_exact_match_first_witness :
    fileA ∈ [fileA, fileB] ∧
    (∃ top p0, rankCandidates rankCache [fileA, fileB] [(1 : ℚ), 2] = some top ∧
      top.head? = some p0 ∧ p0.1 = fileA ∧ p0.2 = some 0) := by
  have hyp : ∀ f ∈ [fileA, fileB], ∃ e, lookupCache rankCache f.path = some e ∧
      e.embedding.length = [(1 : ℚ), 2].length := by
    intro f hf
    rcases List.mem_cons.mp hf with rfl | hf2
    · exact ⟨{ codehash := "ha", embedding := [1, 2] }, rfl, rfl⟩
    rcases List.mem_cons.mp hf2 with rfl | hf3
    · exact ⟨{ codehash := "hb", embedding := [3, 4] }, rfl, rfl⟩
    cases hf3
  have hothers : ∀ f ∈ [fileA, fileB], f ≠ fileA →
      ∀ e, lookupCache rankCache f.path = some e → e.embedding ≠ [(1 : ℚ), 2] := by
    intro f hf hne e he
    rcases List.mem_cons.mp hf with rfl | hf2
    · exact absurd rfl hne
    rcases List.mem_cons.mp hf2 with rfl | hf3
    · have he2 : e = { codehash := "hb", embedding := [3, 4] } := by
        have : (some { codehash := "hb", embedding := ([3, 4] : List ℚ) } :
            Option CacheEntry) = some e := by rw [← he]; rfl
        exact (Option.some.injEq _ _ ▸ this).symm
      rw [he2]
      intro hcontra
      have h31 : (3 : ℚ) = 1 := by
        have hh := congrArg (fun l => l.headI) hcontra
        simp only [List.headI] at hh
        exact hh
      norm_num at h31
    cases hf3
  exact ⟨List.mem_cons_self fileA [fileB],
    c7_exact_match_first rankCache [fileA, fileB] [(1 : ℚ), 2] fileA
      { codehash := "ha", embedding := [1, 2] }
      (List.mem_cons_self fileA [fileB]) hyp rfl rfl hothers⟩

/-- **C8.**  The diffing stage selects exactly the files whose cached entry is
missing or whose cached codehash differs from the current one; and after a
call in which every batch succeeded, re-running the diff over the same
(unchanged) files selects nothing — no file is re-embedded the second time. -/
theorem c8_idempotent_diffing (embedDoc : String → List ℚ) (cache0 : Cache)
    (files : List DartFile) (hnodup : (files.map (fun f => f.path)).Nodup) :
    (∀ fc ∈ files.map mkFileContent,
      (fc ∈ filesToUpdate cache0 (files.map mkFileContent) ↔
        ∀ e, lookupCache cache0 fc.path = some e → e.codehash ≠ fc.codehash)) ∧
    filesToUpdate
      (processBatches embedDoc (fun _ => true)
        (makeBatches 100 (filesToUpdate cache0 (files.map mkFileContent))) cache0)
      (files.map mkFileContent) = [] := by
  have hnodup2 : ((files.map mkFileContent).map (fun x => x.path)).Nodup := by
    rw [List.map_map]
    exact hnodup
  constructor
  · intro fc hfc
    unfold filesToUpdate
    rw [List.mem_filter]
    constructor
    · rintro ⟨-, hp⟩ e he
      rw [he] at hp
      simpa using hp
    · intro hp
      refine ⟨hfc, ?_⟩
      cases he : lookupCache cache0 fc.path with
      | none => rfl
      | some e => simpa using hp e he
  · rw [processBatches_allOk, flatten_makeBatches 100 (by norm_num)]
    have hupdnodup :
        ((filesToUpdate cache0 (files.map mkFileContent)).map (fun x => x.path)).Nodup := by
      have hsub : List.Sublist (filesToUpdate cache0 (files.map mkFileContent))
          (files.map mkFileContent) := by
        unfold filesToUpdate
        exact List.filter_sublist _
      exact List.Nodup.sublist (hsub.map (fun x => x.path)) hnodup2
    conv_lhs => rw [filesToUpdate]
    rw [List.filter_eq_nil_iff]
    intro fc hfc
    by_cases hin : fc ∈ filesToUpdate cache0 (files.map mkFileContent)
    · have hlook := lookup_foldl_merge_mem embedDoc _ cache0 fc hupdnodup hin
      rw [hlook]
      simp
    · have hnm : ∀ x ∈ filesToUpdate cache0 (files.map mkFileContent), x.path ≠ fc.path := by
        intro x hx hxp
        have hxfcs : x ∈ files.map mkFileContent := by
          unfold filesToUpdate at hx
          exact (List.mem_filter.mp hx).1
        have hxfc : x = fc := List.inj_on_of_nodup_map hnodup2 hxfcs hfc hxp
        exact hin (hxfc ▸ hx)
      have hlook := lookup_foldl_merge_notmem embedDoc _ cache0 fc.path hnm
      rw [hlook]
      intro hcontra
      apply hin
      unfold filesToUpdate
      exact List.mem_filter.mpr ⟨hfc, hcontra⟩

/-- **C8 witness**: a cold cache, one file, all batches succeed. -/
theorem c8_idempotent_diffing_witness :
    ([fileA].map (fun f => f.path)).Nodup ∧
    ((∀ fc ∈ [fileA].map mkFileContent,
      (fc ∈ filesToUpdate [] ([fileA].map mkFileContent) ↔
        ∀ e, lookupCache [] fc.path = some e → e.codehash ≠ fc.codehash)) ∧
    filesToUpdate
      (processBatches (fun _ => [1]) (fun _ => true)
        (makeBatches 100 (filesToUpdate [] ([fileA].map mkFileContent))) [])
      ([fileA].map mkFileContent) = []) :=
  ⟨by decide, c8_idempotent_diffing (fun _ => [1]) [] [fileA] (by decide)⟩

/-- **C10.**  Every cache entry present after the batch loop either was already
in the cache before the loop, or pairs the fingerprint and the embedding of
one and the same rendered text: its codehash is `computeCodehash t` and its
vector is the remote embedding of that very `t` (the remote API's responses
are modelled as aligned with its requests, per its contract).  Hence a stored
fingerprint match always identifies the exact text the stored vector was
computed from. -/
theorem c10_entry_pairing (embedDoc : String → List ℚ) (batchOk : Nat → Bool)
    (cache0 : Cache) (files : List DartFile) (p : String) (e : CacheEntry)
    (h : lookupCache
      (processBatches embedDoc batchOk
        (makeBatches 100 (filesToUpdate cache0 (files.map mkFileContent))) cache0) p = some e) :
    lookupCache cache0 p = some e ∨
      ∃ t, e.codehash = computeCodehash t ∧ e.embedding = embedDoc t := by
  rcases lookup_processBatches_cases embedDoc batchOk _ cache0 p e h with h2 | ⟨b, hb, fc, hfc, rfl⟩
  · exact Or.inl h2
  · right
    have hfl : fc ∈ (makeBatches 100 (filesToUpdate cache0 (files.map mkFileContent))).flatten :=
      List.mem_flatten.mpr ⟨b, hb, hfc⟩
    rw [flatten_makeBatches 100 (by norm_num)] at hfl
    have hfcs : fc ∈ files.map mkFileContent := by
      unfold filesToUpdate at hfl
      exact (List.mem_filter.mp hfl).1
    obtain ⟨f, hf, rfl⟩ := List.mem_map.mp hfcs
    exact ⟨renderText f, rfl, rfl⟩

/-- **C10 witness**: a cold cache and one file; its entry after the loop pairs
the hash of the rendered text with the embedding of the same text. -/
theorem c10_entry_pairing_witness :
    lookupCache
      (processBatches (fun _ => [1]) (fun _ => true)
        (makeBatches 100 (filesToUpdate [] ([fileA].map mkFileContent))) [])
      fileA.path =
      some { codehash := computeCodehash (renderText fileA), embedding := [1] } ∧
    (lookupCache ([] : Cache) fileA.path =
        some { codehash := computeCodehash (renderText fileA), embedding := [1] } ∨
      ∃ t, computeCodehash (renderText fileA) = computeCodehash t ∧
        ([(1 : ℚ)] : List ℚ) = (fun _ => [(1 : ℚ)]) t) := by
  have hEq : lookupCache
      (processBatches (fun _ => [(1 : ℚ)]) (fun _ => true)
        (makeBatches 100 (filesToUpdate [] ([fileA].map mkFileContent))) [])
      fileA.path =
      some { codehash := computeCodehash (renderText fileA), embedding := [1] } := rfl
  exact ⟨hEq, c10_entry_pairing (fun _ => [1]) (fun _ => true) [] [fileA] fileA.path
    { codehash := computeCodehash (renderText fileA), embedding := [1] } hEq⟩

set_option maxRecDepth 10000 in
/-- **C1 (code bug).**  The claim (and the spec's stated intent) is that a
failed batch's files are excluded from the ranking pool and no stale or wrong
vector is substituted.  The code instead performs the unguarded lookup
`codehashCache[file.path].embedding` over ALL listed files: at `c1Input` (the
failed batch's file has no cache entry) the member access throws and the whole
retrieval call aborts instead of returning results; at `c1StaleInput` (the
failed batch's file has a stale entry) the call "succeeds" by ranking with the
stale vector [7] — exactly the substitution the claim rules out.  The second
conjunct shows the file had been selected for (the failed) re-embedding, so
its stale vector was never refreshed. -/
theorem c1_unguarded_ranking_lookup :
    (findClosestDartFiles c1Input).1 = Except.error missingEntryErrorMsg ∧
    filesToUpdate [] ([fileA].map mkFileContent) = [mkFileContent fileA] ∧
    (findClosestDartFiles c1StaleInput).1 = Except.ok (jsTrim (renderText fileA)) := by
  refine ⟨rfl, rfl, ?_⟩
  decide

/-- **C2 counterexample.**  The claim says a cache-persistence failure is only
logged and the call still returns the ranked results.  But `saveCache`'s catch
block calls `handleError`, which logs and then THROWS
`new Error('Failed to save the cache data.')`; `findClosestDartFiles`'s own
catch rethrows it.  At this concrete input the call aborts with that error
instead of returning results. -/
theorem c2_counterexample :
    (findClosestDartFiles c2Input).1 = Except.error saveCacheErrorMsg := rfl

/-- **C2 (amended).**  What the code actually does when persisting fails:
if the thrown value is an `Error` instance (the normal storage failure), the
call aborts with 'Failed to save the cache data.'; only a thrown non-`Error`
value is merely logged, in which case the call proceeds exactly as if the
write had succeeded and returns the in-memory ranked results. -/
theorem c2_save_failure_amended (inp : RetrievalInput) (k : String) (e : JsThrown)
    (hk : inp.apiKey = some k) (hw : inp.writeResult = Except.error e) :
    (e.isErrorInstance = true →
      (findClosestDartFiles inp).1 = Except.error saveCacheErrorMsg) ∧
    (e.isErrorInstance = false →
      findClosestDartFiles inp = findClosestDartFiles { inp with writeResult := Except.ok () }) := by
  obtain ⟨ak, mc, dc, df, ed, bo, qe, wr⟩ := inp
  dsimp only at hk hw
  subst hk
  subst hw
  constructor
  · intro hE
    simp [findClosestDartFiles, saveCache, hE]
  · intro hE
    simp [findClosestDartFiles, saveCache, hE]

/-- **C2 amended witness**: `c2Input` fails its write with an `Error`. -/
theorem c2_save_failure_amended_witness :
    c2Input.apiKey = some "key" ∧
    c2Input.writeResult =
      Except.error { isErrorInstance := true, message := "EACCES: permission denied" } ∧
    (((true : Bool) = true →
      (findClosestDartFiles c2Input).1 = Except.error saveCacheErrorMsg) ∧
     ((true : Bool) = false →
      findClosestDartFiles c2Input =
        findClosestDartFiles { c2Input with writeResult := Except.ok () })) :=
  ⟨rfl, rfl,
    c2_save_failure_amended c2Input "key"
      { isErrorInstance := true, message := "EACCES: permission denied" } rfl rfl⟩
